import Mathlib

/-!
# Verification of the hammx fluent HTTP client

A shallow embedding of the hammx repository: the core path-chaining client
(modelled from the specification, since only its tests and example consumers
ship in the source tree) together with the example middleware
(`examples/middleware.py`), caching (`examples/caching.py`) and pagination
(`examples/pagination.py`) helpers, which are embedded directly from their
source.
-/

namespace Hammx

/-- Modelled from the spec: the reserved HTTP-verb tokens (§4.1: "GET, POST,
PUT, PATCH, DELETE, …"; the test suite `test_methods` exercises exactly these
five).  An attribute access with one of these names triggers dispatch instead
of producing a child node. -/
def httpMethods : List String := ["GET", "POST", "PUT", "DELETE", "PATCH"]

/-- Modelled from the spec: the Client's constructor configuration (§6):
base URL, default headers, optional default auth credential, and the
trailing-slash policy flag `append_slash` (default false).  The transport
handle is an external collaborator and carries no modelled state. -/
structure ClientConfig where
  base_url : String
  headers : List (String × String) := []
  auth : Option (String × String) := none
  append_slash : Bool := false
deriving Repr, DecidableEq

/-- Modelled from the spec: URLBuilder's join step — base URL joined with each
segment using exactly one separator character between components (§4.2). -/
def joinSegments (base : String) (segs : List String) : String :=
  segs.foldl (fun acc s => acc ++ "/" ++ s) base

/-- Modelled from the spec: the URLBuilder algorithm (§4.2).  Join the base
URL with each segment with exactly one separator; if the trailing-slash
policy is enabled append exactly one separator after the last segment (and
only if there is at least one segment); an empty segment list returns the
base URL unchanged. -/
def buildURL (base : String) (segs : List String) (appendSlash : Bool) : String :=
  match segs with
  | [] => base
  | _ :: _ => joinSegments base segs ++ (if appendSlash then "/" else "")

/-- Modelled from the spec: the default "resolve full URL for a node"
operation (`_url`), which applies the URLBuilder algorithm to the client's
base URL, the node's segment sequence and the trailing-slash policy
(§4.2, §4.4). -/
def defaultResolve (cfg : ClientConfig) (segs : List String) : String :=
  buildURL cfg.base_url segs cfg.append_slash

/-- Modelled from the spec: the Client/session object (§4.4).  It owns the
shared configuration, and its URL-resolution operation is an override point
that is dynamically dispatched: a specialization may replace `resolve`
(the test suite's `CustomHammx` overrides `_url`); the base construction
installs `defaultResolve`. -/
structure Client where
  config : ClientConfig
  resolve : ClientConfig → List String → String

/-- Modelled from the spec: base Client construction — the base class's URL
resolution is installed. -/
def mkClient (cfg : ClientConfig) : Client :=
  { config := cfg, resolve := defaultResolve }

/-- Modelled from the spec: a specialized Client whose "resolve full URL"
operation has been overridden (§4.4, test `test_inheritance`). -/
def mkCustomClient (cfg : ClientConfig) (f : ClientConfig → List String → String) : Client :=
  { config := cfg, resolve := f }

/-- Modelled from the spec: a PathNode is either the root (the Client itself,
name empty) or a child deriving from a parent node with one more segment
name (§3, §4.1).  Every node keeps a back-reference to the owning Client
through its root. -/
inductive PathNode where
  | root (c : Client)
  | child (parent : PathNode) (name : String)

/-- The owning Client of a node, reached through the parent chain. -/
def PathNode.clientOf : PathNode → Client
  | .root c => c
  | .child p _ => p.clientOf

/-- The ordered segment names of a node from the root (exclusive) to itself
(§3: "the full path of a node is the ordered concatenation of every
ancestor's name from root (exclusive) to itself"). -/
def PathNode.segments : PathNode → List String
  | .root _ => []
  | .child p n => p.segments ++ [n]

/-- Modelled from the spec: operation "extend-by-name(segment)" (§4.1) —
returns a new child PathNode whose name is the segment and whose parent is
the receiver. -/
def extendByName (n : PathNode) (seg : String) : PathNode :=
  .child n seg

/-- Modelled from the spec: operation "extend-by-names(seg1, seg2, …)"
(§4.1) — call-style access accepting zero or more segments, equivalent to
repeated extend-by-name left to right; zero arguments returns `self`
unchanged. -/
def extendByNames (n : PathNode) (segs : List String) : PathNode :=
  segs.foldl extendByName n

/-- Modelled from the spec: the full URL of a node — the Client's (possibly
overridden) resolve operation applied to its configuration and the node's
segments; the override point is dynamically dispatched (§4.4). -/
def nodeURL (n : PathNode) : String :=
  n.clientOf.resolve n.clientOf.config n.segments

/-- Modelled from the spec: what an attribute access on a node produces
(§4.1 "Dynamic dispatch over attribute names"): a reserved HTTP-verb token
triggers the RequestDispatcher, a reserved internal name (the Python
implementation's underscore-prefixed machinery) resolves to the internal
member, and every other name is treated as a path segment and yields a
child node. -/
inductive AccessResult where
  | dispatcher (n : PathNode) (method : String)
  | internal (name : String)
  | node (n : PathNode)

/-- Modelled from the spec: whether a name is a reserved internal name —
the Python implementation's underscore-prefixed machinery (§4.1 "not a
reserved internal name"). -/
def isInternalName (name : String) : Bool :=
  match name.data with
  | [] => false
  | c :: _ => c == '_'

/-- Modelled from the spec: attribute-style access on a node (§4.1). -/
def access (n : PathNode) (name : String) : AccessResult :=
  if name ∈ httpMethods then .dispatcher n name
  else if isInternalName name then .internal name
  else .node (extendByName n name)

/-- Modelled from the spec: per-call request options (§3, §6): query
parameters, body, extra headers, auth override. -/
structure RequestOptions where
  params : List (String × String) := []
  body : Option String := none
  headers : List (String × String) := []
  auth : Option (String × String) := none
deriving Repr, DecidableEq

/-- Modelled from the spec: the request handed to the transport collaborator
(§6): method, final URL, merged headers, params, body, effective auth. -/
structure SentRequest where
  method : String
  url : String
  headers : List (String × String)
  params : List (String × String)
  body : Option String
  auth : Option (String × String)
deriving Repr, DecidableEq

/-- Modelled from the spec: shallow header merge, last-write-wins per key,
per-call values taking precedence over the Client defaults (§4.3). -/
def mergeHeaders (defaults overrides : List (String × String)) :
    List (String × String) :=
  defaults.filter (fun kv => (overrides.lookup kv.1).isNone) ++ overrides

/-- Modelled from the spec: effective auth — the per-call override takes
precedence over the Client default (§4.3). -/
def mergeAuth (default override : Option (String × String)) :
    Option (String × String) :=
  match override with
  | some a => some a
  | none => default

/-- Modelled from the spec: RequestDispatcher (§4.3) — builds the final URL
via the node's (dynamically dispatched) URL resolution, merges the Client
default headers/auth with the per-call overrides, and delegates to the
transport's single generic send capability.  It produces the sent request;
it reads, and never writes, the Client configuration. -/
def dispatch (n : PathNode) (method : String) (opts : RequestOptions) :
    SentRequest :=
  { method := method
    url := nodeURL n
    headers := mergeHeaders n.clientOf.config.headers opts.headers
    params := opts.params
    body := opts.body
    auth := mergeAuth n.clientOf.config.auth opts.auth }

/-- A chain-building step: attribute-style access with one name, or
call-style access with a list of names (§4.1, §6 "public chain-building
surface"). -/
inductive Step where
  | attr (name : String)
  | call (names : List String)

/-- The segment names a list of steps contributes, in order. -/
def flattenSteps : List Step → List String
  | [] => []
  | .attr n :: rest => n :: flattenSteps rest
  | .call ns :: rest => ns ++ flattenSteps rest

/-- Apply one chain-building step to a node.  An attribute step only builds a
child when the name is neither a reserved verb nor an internal name
(§4.1: a segment colliding with a reserved verb cannot be reached via
attribute syntax). -/
def applyStep (n : PathNode) : Step → Option PathNode
  | .attr name =>
    match access n name with
    | .node c => some c
    | _ => none
  | .call names => some (extendByNames n names)

/-- Build a chain from a node by a list of steps, left to right. -/
def buildChain (n : PathNode) : List Step → Option PathNode
  | [] => some n
  | s :: rest =>
    match applyStep n s with
    | none => none
    | some c => buildChain c rest

/-- Modelled from the spec: string conversion of a node yields the fully
resolved URL (§6 "String conversion"). -/
def strConv (n : PathNode) : String :=
  nodeURL n

/-- The request path: the part of the sent URL after the Client's base URL
(the tests inspect `request.url.path`). -/
def requestPath (c : Client) (r : SentRequest) : String :=
  r.url.drop c.config.base_url.length

/-- One dispatch command in a session trace: the segment names of the chain,
the HTTP method, and the per-call options. -/
structure DispatchCall where
  segs : List String
  method : String
  opts : RequestOptions

/-- Modelled from the spec: running a sequence of dispatches against one
Client session (test `test_session`).  The Client value is threaded through
the whole run: each dispatch reads it to merge headers and auth and hands
the same session state to the next dispatch (§4.3: "does not mutate Client
or PathNode state"). -/
def runSession (c : Client) : List DispatchCall → List SentRequest × Client
  | [] => ([], c)
  | call :: rest =>
    (dispatch (extendByNames (.root c) call.segs) call.method call.opts
        :: (runSession c rest).1,
     (runSession c rest).2)

/-- A transport response as the example middleware observes it: a status code
and an opaque body (`examples/middleware.py`, `examples/caching.py` branch
only on `status_code`). -/
structure Response where
  status_code : Nat
  body : String := ""
deriving Repr, DecidableEq

/-! ## `examples/middleware.py` — `with_retry`

`with_retry(client, max_retries=3, retry_codes=(500, 502, 503, 504), ...)`
wraps `client._request` in `retry_request`, a loop that re-issues the
underlying request while the status code is in `retry_codes` and
`retries < max_retries`.  The underlying request is modelled as a stream
`resp : Nat → Response` giving the response of the k-th invocation; the
backoff sleep has no modelled effect. -/

/-- The `while True` loop of `retry_request` (`examples/middleware.py`
lines 85-98).  `remaining` is `max_retries - retries`, so `remaining = 0`
is exactly the loop's `retries >= max_retries` exit; `attempt` counts the
invocations of the underlying request already made.  Returns the response
the loop returns together with the total number of underlying
invocations. -/
def retryAux (resp : Nat → Response) (retryCodes : List Nat) :
    Nat → Nat → Response × Nat
  | remaining, attempt =>
    let r := resp attempt
    if r.status_code ∈ retryCodes then
      match remaining with
      | 0 => (r, attempt + 1)
      | remaining' + 1 => retryAux resp retryCodes remaining' (attempt + 1)
    else (r, attempt + 1)

/-- One call of the request wrapped by `with_retry`: the loop starting at
`retries = 0`. -/
def retryRequest (resp : Nat → Response) (maxRetries : Nat)
    (retryCodes : List Nat) : Response × Nat :=
  retryAux resp retryCodes maxRetries 0

/-! ## `examples/caching.py` — `with_memory_cache` -/

/-- One entry of the in-memory cache dict: the stored response and the
`time.time()` stamp at which it was stored (`examples/caching.py`
lines 57-60). -/
structure CacheEntry where
  response : Response
  time : Int
deriving Repr, DecidableEq

/-- The cache key of `cached_get` (`examples/caching.py` lines 36-42):
`f"{url}:{json.dumps(params, sort_keys=True)}"`, replaced by its md5 digest
when longer than 100 characters.  The digest function is a parameter. -/
def mkCacheKey (md5 : String → String) (url paramsJson : String) : String :=
  let k := url ++ ":" ++ paramsJson
  if k.length > 100 then md5 k else k

/-- Store under a key, overwriting any previous entry (Python dict
assignment `cache[cache_key] = ...`). -/
def cacheInsert (cache : List (String × CacheEntry)) (key : String)
    (e : CacheEntry) : List (String × CacheEntry) :=
  (key, e) :: cache.filter (fun kv => kv.1 ≠ key)

/-- One call of `cached_get` (`examples/caching.py` lines 34-62): if the key
is present and its entry is strictly younger than `ttl`, the cached
response is returned and no request is made; otherwise the underlying GET
(whose response is `fresh`) is issued, stored only when its status code is
200, and returned.  Result: response, cache afterwards, and whether the
underlying request was invoked. -/
def cachedGet (ttl : Int) (cache : List (String × CacheEntry)) (key : String)
    (now : Int) (fresh : Response) :
    Response × List (String × CacheEntry) × Bool :=
  let miss : Response × List (String × CacheEntry) × Bool :=
    if fresh.status_code = 200 then
      (fresh, cacheInsert cache key ⟨fresh, now⟩, true)
    else (fresh, cache, true)
  match cache.lookup key with
  | some e => if now - e.time < ttl then (e.response, cache, false) else miss
  | none => miss

/-- One observed `cached_get` call for a cache run: the key, the clock value
`time.time()`, and the response the underlying GET would produce. -/
structure CacheOp where
  key : String
  now : Int
  fresh : Response

/-- The cache contents after a sequence of `cached_get` calls starting from
a given cache (`with_memory_cache` starts from the empty dict). -/
def runCache (ttl : Int) (cache : List (String × CacheEntry)) :
    List CacheOp → List (String × CacheEntry)
  | [] => cache
  | op :: rest => runCache ttl (cachedGet ttl cache op.key op.now op.fresh).2.1 rest

/-! ## `examples/pagination.py` — `iter_cursor` -/

/-- A JSON value as `response.json()` produces it. -/
inductive JValue where
  | null
  | bool (b : Bool)
  | num (n : Int)
  | str (s : String)
  | arr (items : List JValue)
  | obj (fields : List (String × JValue))

/-- Python truthiness of a JSON value (`if not next_cursor`, `if not items`):
`None`, `False`, `0`, `""`, `[]` and `{}` are falsy. -/
def jFalsy : JValue → Bool
  | .null => true
  | .bool b => !b
  | .num n => n == 0
  | .str s => s == ""
  | .arr xs => xs.isEmpty
  | .obj fs => fs.isEmpty

/-- `if not next_cursor` where `next_cursor = data.get(cursor_field)`: the
absent key gives `None`, which is falsy. -/
def ncFalsy : Option JValue → Bool
  | none => true
  | some v => jFalsy v

/-- The candidate keys `['items', 'results', 'data', 'records']`
(`examples/pagination.py` line 148). -/
def itemKeys : List String := ["items", "results", "data", "records"]

/-- The `for key in [...]: if key in data: items = data[key]; break` scan:
the value of the first candidate key present in the dict. -/
def findFirstKey (fs : List (String × JValue)) : List String → Option JValue
  | [] => none
  | k :: rest =>
    match fs.lookup k with
    | some v => some v
    | none => findFirstKey fs rest

/-- The fallback of the `for ... else` clause (`examples/pagination.py`
lines 153-157): every field other than the cursor field whose value is a
list. -/
def listFields (fs : List (String × JValue)) (cf : String) :
    List (String × List JValue) :=
  fs.filterMap (fun kv =>
    match kv.2 with
    | .arr xs => if kv.1 = cf then none else some (kv.1, xs)
    | _ => none)

/-- The items one loop iteration of `iter_cursor` extracts from a response
(`examples/pagination.py` lines 141-159).  `none` marks the inputs on
which the Python code errors or iterates a non-list (a candidate key
mapped to a non-list value, or a response that is neither dict nor
list, where `next_cursor` is unbound on the first iteration). -/
def extractItems (data : JValue) (cf : String) : Option (List JValue) :=
  match data with
  | .obj fs =>
    match findFirstKey fs itemKeys with
    | some (.arr xs) => some xs
    | some _ => none
    | none =>
      match listFields fs cf with
      | [kv] => some kv.2
      | _ => some []
  | .arr xs => some xs
  | _ => none

/-- `data.get(cursor_field)` for dict responses; array responses set
`next_cursor = None` (`examples/pagination.py` lines 145, 160). -/
def nextCursorOf (data : JValue) (cf : String) : Option JValue :=
  match data with
  | .obj fs => fs.lookup cf
  | _ => none

/-- The `while True` loop of `iter_cursor` (`examples/pagination.py`
lines 131-171), with the GET responses modelled as the stream
`pages : Nat → JValue` of the bodies of successive requests, `k` the index
of the next request, and `fuel` bounding the number of iterations.  Yields
the items of the current page, then continues only when the next cursor is
truthy and the page was non-empty. -/
def iterCursorAux (pages : Nat → JValue) (cf : String) :
    Nat → Nat → List JValue
  | 0, _ => []
  | fuel + 1, k =>
    let data := pages k
    match extractItems data cf with
    | none => []
    | some items =>
      items ++
        (if ncFalsy (nextCursorOf data cf) || items.isEmpty then []
         else iterCursorAux pages cf fuel (k + 1))

/-- `iter_cursor` from the first request on. -/
def iterCursor (pages : Nat → JValue) (cf : String) (fuel : Nat) :
    List JValue :=
  iterCursorAux pages cf fuel 0

/-- The last character of a string, if any (used to state trailing-slash
properties of resolved URLs). -/
def lastChar (s : String) : Option Char :=
  s.data.getLast?

/-! ## Helper lemmas -/

theorem segments_extendByName (n : PathNode) (s : String) :
    (extendByName n s).segments = n.segments ++ [s] := rfl

theorem segments_extendByNames (segs : List String) :
    ∀ n : PathNode, (extendByNames n segs).segments = n.segments ++ segs := by
  induction segs with
  | nil => intro n; simp [extendByNames]
  | cons s rest ih =>
    intro n
    have : extendByNames n (s :: rest) = extendByNames (extendByName n s) rest := rfl
    rw [this, ih, segments_extendByName, List.append_assoc]
    rfl

theorem clientOf_extendByNames (segs : List String) :
    ∀ n : PathNode, (extendByNames n segs).clientOf = n.clientOf := by
  induction segs with
  | nil => intro n; rfl
  | cons s rest ih =>
    intro n
    have : extendByNames n (s :: rest) = extendByNames (extendByName n s) rest := rfl
    rw [this, ih]
    rfl

theorem buildChain_spec : ∀ (steps : List Step) (n m : PathNode),
    buildChain n steps = some m →
    m.segments = n.segments ++ flattenSteps steps ∧ m.clientOf = n.clientOf := by
  intro steps
  induction steps with
  | nil =>
    intro n m h
    simp only [buildChain, Option.some.injEq] at h
    subst h
    simp [flattenSteps]
  | cons s rest ih =>
    intro n m h
    simp only [buildChain] at h
    cases hs : applyStep n s with
    | none => rw [hs] at h; simp at h
    | some c =>
      rw [hs] at h
      obtain ⟨h1, h2⟩ := ih c m h
      cases s with
      | attr name =>
        simp only [applyStep, access] at hs
        by_cases hv : name ∈ httpMethods
        · simp [hv] at hs
        · by_cases hu : isInternalName name
          · simp [hv, hu] at hs
          · simp only [hv, if_false, hu, Bool.false_eq_true, Option.some.injEq] at hs
            subst hs
            refine ⟨?_, ?_⟩
            · rw [h1, segments_extendByName, flattenSteps]
              simp
            · rw [h2]; rfl
      | call names =>
        simp only [applyStep, Option.some.injEq] at hs
        subst hs
        refine ⟨?_, ?_⟩
        · rw [h1, segments_extendByNames, flattenSteps, List.append_assoc]
        · rw [h2, clientOf_extendByNames]

theorem lookup_cons_eq (k k1 v1 : String) (l : List (String × String)) :
    List.lookup k ((k1, v1) :: l) = if k == k1 then some v1 else List.lookup k l := by
  simp only [List.lookup_cons]
  cases h : k == k1 <;> simp [h]

theorem lookup_filter_append (o : List (String × String)) (k : String) :
    ∀ d : List (String × String),
      ((d.filter (fun kv => (o.lookup kv.1).isNone)) ++ o).lookup k =
        match o.lookup k with
        | some v => some v
        | none => d.lookup k := by
  intro d
  induction d with
  | nil =>
    simp only [List.filter_nil, List.nil_append, List.lookup_nil]
    cases o.lookup k <;> rfl
  | cons kv d ih =>
    obtain ⟨k1, v1⟩ := kv
    simp only [List.filter_cons]
    cases hp : (o.lookup k1).isNone with
    | true =>
      have ho : o.lookup k1 = none := Option.isNone_iff_eq_none.mp hp
      simp only [hp, if_pos, List.cons_append]
      cases hok : o.lookup k with
      | none =>
        simp only [hok] at ih ⊢
        rw [lookup_cons_eq, lookup_cons_eq, ih]
      | some v =>
        simp only [hok] at ih ⊢
        rw [lookup_cons_eq]
        have hk : (k == k1) = false := by
          cases hb : k == k1
          · rfl
          · exfalso
            have : k = k1 := beq_iff_eq.mp hb
            rw [this, ho] at hok
            exact Option.noConfusion hok
        rw [hk, if_neg (by simp), ih]
    | false =>
      obtain ⟨w, hw⟩ : ∃ w, o.lookup k1 = some w := by
        cases hlk : o.lookup k1
        · rw [hlk] at hp; exact absurd hp (by simp)
        · exact ⟨_, rfl⟩
      simp only [hp, Bool.false_eq_true, if_neg, not_false_iff, if_false]
      cases hok : o.lookup k with
      | none =>
        simp only [hok] at ih ⊢
        rw [ih, lookup_cons_eq]
        have hk : (k == k1) = false := by
          cases hb : k == k1
          · rfl
          · exfalso
            have : k = k1 := beq_iff_eq.mp hb
            rw [this, hw] at hok
            exact Option.noConfusion hok
        rw [hk, if_neg (by simp)]
      | some v =>
        simp only [hok] at ih ⊢
        exact ih

theorem mergeHeaders_lookup (d o : List (String × String)) (k : String) :
    (mergeHeaders d o).lookup k =
      match o.lookup k with
      | some v => some v
      | none => d.lookup k :=
  lookup_filter_append o k d

theorem mergeHeaders_nil (d : List (String × String)) :
    mergeHeaders d [] = d := by
  unfold mergeHeaders
  simp [List.lookup_nil]

theorem mergeAuth_none (a : Option (String × String)) :
    mergeAuth a none = a := rfl

theorem retryAux_spec (resp : Nat → Response) (codes : List Nat) :
    ∀ remaining attempt : Nat,
      attempt + 1 ≤ (retryAux resp codes remaining attempt).2 ∧
      (retryAux resp codes remaining attempt).2 ≤ attempt + remaining + 1 ∧
      (retryAux resp codes remaining attempt).1 =
        resp ((retryAux resp codes remaining attempt).2 - 1) := by
  intro remaining
  induction remaining with
  | zero =>
    intro attempt
    simp only [retryAux]
    by_cases h : (resp attempt).status_code ∈ codes <;> simp [h]
  | succ rem ih =>
    intro attempt
    simp only [retryAux]
    by_cases h : (resp attempt).status_code ∈ codes
    · simp only [h, if_pos]
      obtain ⟨i1, i2, i3⟩ := ih (attempt + 1)
      exact ⟨by omega, by omega, i3⟩
    · simp [h]

theorem retryAux_first (resp : Nat → Response) (codes : List Nat)
    (remaining attempt : Nat) (h : (resp attempt).status_code ∉ codes) :
    retryAux resp codes remaining attempt = (resp attempt, attempt + 1) := by
  cases remaining <;> simp [retryAux, h]

theorem cacheInsert_preserves (cache : List (String × CacheEntry)) (key : String)
    (e0 : CacheEntry) (h : ∀ e ∈ cache, e.2.response.status_code = 200)
    (h0 : e0.response.status_code = 200) :
    ∀ e ∈ cacheInsert cache key e0, e.2.response.status_code = 200 := by
  intro e he
  unfold cacheInsert at he
  rcases List.mem_cons.mp he with h1 | h2
  · subst h1; exact h0
  · exact h _ (List.mem_filter.mp h2).1

theorem cachedGet_preserves (ttl : Int) (cache : List (String × CacheEntry))
    (key : String) (now : Int) (fresh : Response)
    (h : ∀ e ∈ cache, e.2.response.status_code = 200) :
    ∀ e ∈ (cachedGet ttl cache key now fresh).2.1, e.2.response.status_code = 200 := by
  unfold cachedGet
  cases hl : cache.lookup key with
  | none =>
    by_cases hf : fresh.status_code = 200
    · simpa [hf] using cacheInsert_preserves cache key ⟨fresh, now⟩ h hf
    · simpa [hf] using h
  | some e =>
    by_cases ht : now - e.time < ttl
    · simpa [ht] using h
    · by_cases hf : fresh.status_code = 200
      · simpa [ht, hf] using cacheInsert_preserves cache key ⟨fresh, now⟩ h hf
      · simpa [ht, hf] using h

theorem runCache_inv (ttl : Int) :
    ∀ (ops : List CacheOp) (cache : List (String × CacheEntry)),
      (∀ e ∈ cache, e.2.response.status_code = 200) →
      ∀ e ∈ runCache ttl cache ops, e.2.response.status_code = 200 := by
  intro ops
  induction ops with
  | nil => intro cache h; simpa [runCache] using h
  | cons op rest ih =>
    intro cache h
    simp only [runCache]
    exact ih _ (cachedGet_preserves ttl cache op.key op.now op.fresh h)

theorem cachedGet_hit (ttl : Int) (cache : List (String × CacheEntry))
    (key : String) (now : Int) (fresh : Response)
    (h : (cachedGet ttl cache key now fresh).2.2 = false) :
    ∃ en, cache.lookup key = some en ∧ now - en.time < ttl ∧
      (cachedGet ttl cache key now fresh).1 = en.response := by
  unfold cachedGet at h ⊢
  cases hl : cache.lookup key with
  | none =>
    rw [hl] at h
    by_cases hf : fresh.status_code = 200 <;> simp [hf] at h
  | some e =>
    rw [hl] at h
    by_cases ht : now - e.time < ttl
    · exact ⟨e, rfl, ht, by simp [ht]⟩
    · by_cases hf : fresh.status_code = 200 <;> simp [ht, hf] at h

theorem cachedGet_network (ttl : Int) (cache : List (String × CacheEntry))
    (key : String) (now : Int) (fresh : Response)
    (h : (cachedGet ttl cache key now fresh).2.2 = true) :
    (cachedGet ttl cache key now fresh).1 = fresh ∧
    (fresh.status_code ≠ 200 → (cachedGet ttl cache key now fresh).2.1 = cache) := by
  unfold cachedGet at h ⊢
  cases hl : cache.lookup key with
  | none =>
    by_cases hf : fresh.status_code = 200 <;> simp [hf]
  | some e =>
    rw [hl] at h
    by_cases ht : now - e.time < ttl
    · simp [ht] at h
    · by_cases hf : fresh.status_code = 200 <;> simp [ht, hf]

theorem joinSegments_concat (base : String) (l : List String) (s : String) :
    joinSegments base (l ++ [s]) = joinSegments base l ++ "/" ++ s := by
  simp [joinSegments, List.foldl_append]

theorem buildURL_ne_nil (base : String) (segs : List String) (ap : Bool)
    (h : segs ≠ []) :
    buildURL base segs ap = joinSegments base segs ++ (if ap then "/" else "") := by
  cases segs with
  | nil => exact absurd rfl h
  | cons a l => rfl

theorem lastChar_append (a b : String) (h : b ≠ "") :
    lastChar (a ++ b) = lastChar b := by
  unfold lastChar
  rw [String.data_append]
  apply List.getLast?_append_of_ne_nil
  intro hb
  apply h
  cases b
  simp_all

theorem runSession_spec (c : Client) :
    ∀ calls : List DispatchCall,
      (runSession c calls).2 = c ∧
      (runSession c calls).1 = calls.map (fun cl =>
        dispatch (extendByNames (.root c) cl.segs) cl.method cl.opts) := by
  intro calls
  induction calls with
  | nil => exact ⟨rfl, rfl⟩
  | cons cl rest ih =>
    simp only [runSession, List.map]
    exact ⟨ih.1, by rw [ih.2]⟩

/-! ## Claim theorems -/

/-- Claim C1: for every sequence of segment names and every Client, chains
built by attribute-style steps, by call-style steps, or by any mixture of
the two that contribute the same segment sequence resolve to identical URL
strings, and dispatching from them sends requests with the same URL and
hence the same request path. -/
theorem chain_styles_agree (c : Client) (steps1 steps2 : List Step)
    (m1 m2 : PathNode) (method : String) (opts : RequestOptions)
    (h1 : buildChain (.root c) steps1 = some m1)
    (h2 : buildChain (.root c) steps2 = some m2)
    (hS : flattenSteps steps1 = flattenSteps steps2) :
    nodeURL m1 = nodeURL m2 ∧
    dispatch m1 method opts = dispatch m2 method opts ∧
    requestPath c (dispatch m1 method opts)
      = requestPath c (dispatch m2 method opts) := by
  obtain ⟨s1, c1⟩ := buildChain_spec steps1 _ _ h1
  obtain ⟨s2, c2⟩ := buildChain_spec steps2 _ _ h2
  have hseg : m1.segments = m2.segments := by rw [s1, s2, hS]
  have hcl : m1.clientOf = m2.clientOf := by rw [c1, c2]
  have hurl : nodeURL m1 = nodeURL m2 := by
    unfold nodeURL
    rw [hseg, hcl]
  have hd : dispatch m1 method opts = dispatch m2 method opts := by
    unfold dispatch
    rw [hurl, hcl]
  exact ⟨hurl, hd, by rw [hd]⟩

/-- The test suite's base URL, as a Client (`test_urls`). -/
def clientW : Client := mkClient { base_url := "http://localhost:8000" }

/-- Pure attribute-style construction of `/sample/path/to/resource`
(`client.sample.path.to.resource`). -/
def stepsAttrW : List Step :=
  [.attr "sample", .attr "path", .attr "to", .attr "resource"]

/-- Mixed construction of the same path
(`client("sample", "path").to.resource`). -/
def stepsMixedW : List Step :=
  [.call ["sample", "path"], .attr "to", .attr "resource"]

/-- The node reached by either construction from `clientW`. -/
def nodeW : PathNode :=
  .child (.child (.child (.child (.root clientW) "sample") "path") "to") "resource"

theorem chain_styles_agree_witness :
    nodeURL nodeW = nodeURL nodeW ∧
    dispatch nodeW "GET" {} = dispatch nodeW "GET" {} ∧
    requestPath clientW (dispatch nodeW "GET" {})
      = requestPath clientW (dispatch nodeW "GET" {}) :=
  chain_styles_agree clientW stepsAttrW stepsMixedW nodeW nodeW "GET" {} rfl rfl rfl

/-- Claim C2: an attribute access whose name is a reserved HTTP-verb token
triggers request dispatch with that method, while any other (non-internal)
name is treated as a path segment and produces a child node carrying that
name; in particular lowercase names behave as segments while the uppercase
verb tokens dispatch. -/
theorem access_verb_or_segment (n : PathNode) (name : String) :
    (name ∈ httpMethods → access n name = .dispatcher n name) ∧
    (name ∉ httpMethods → isInternalName name = false →
      access n name = .node (extendByName n name) ∧
      (extendByName n name).segments = n.segments ++ [name]) := by
  constructor
  · intro h
    simp [access, h]
  · intro h hu
    refine ⟨?_, rfl⟩
    simp [access, h, hu]

theorem access_verb_or_segment_witness :
    access (.root clientW) "GET" = .dispatcher (.root clientW) "GET" ∧
    access (.root clientW) "get" = .node (extendByName (.root clientW) "get") :=
  ⟨(access_verb_or_segment (.root clientW) "GET").1 (by decide),
   ((access_verb_or_segment (.root clientW) "get").2 (by decide) (by decide)).1⟩

/-- Claim C3: for a chain with at least one segment whose last segment is a
nonempty name not itself ending in the separator, the URL resolved with the
trailing-slash policy enabled ends in exactly one separator (its last
character is a separator and the character before it is not), and the URL
resolved with the policy disabled ends in no separator; the enabled URL is
exactly the disabled URL plus one separator. -/
theorem trailing_slash_policy (base lastSeg : String) (init segs : List String)
    (hsegs : segs = init ++ [lastSeg]) (hne : lastSeg ≠ "")
    (hsl : lastChar lastSeg ≠ some '/') :
    lastChar (buildURL base segs true) = some '/' ∧
    (buildURL base segs true).data.dropLast.getLast? ≠ some '/' ∧
    lastChar (buildURL base segs false) ≠ some '/' ∧
    buildURL base segs true = buildURL base segs false ++ "/" := by
  subst hsegs
  have hnn : init ++ [lastSeg] ≠ [] := by simp
  have hjoin : joinSegments base (init ++ [lastSeg])
      = joinSegments base init ++ "/" ++ lastSeg := joinSegments_concat base init lastSeg
  have hfalse : buildURL base (init ++ [lastSeg]) false
      = joinSegments base (init ++ [lastSeg]) := by
    rw [buildURL_ne_nil base _ false hnn]
    simp
  have htrue : buildURL base (init ++ [lastSeg]) true
      = joinSegments base (init ++ [lastSeg]) ++ "/" := by
    rw [buildURL_ne_nil base _ true hnn]
    simp
  have hlast : lastChar (joinSegments base (init ++ [lastSeg])) = lastChar lastSeg := by
    rw [hjoin]
    exact lastChar_append _ lastSeg hne
  refine ⟨?_, ?_, ?_, ?_⟩
  · rw [htrue, lastChar_append _ "/" (by decide)]
    rfl
  · rw [htrue]
    have hdata : (joinSegments base (init ++ [lastSeg]) ++ "/").data
        = (joinSegments base (init ++ [lastSeg])).data ++ ['/'] := by
      rw [String.data_append]
    rw [hdata, List.dropLast_concat]
    intro hcon
    apply hsl
    rw [← hlast]
    exact hcon
  · rw [hfalse, hlast]
    exact hsl
  · rw [htrue, hfalse]

theorem trailing_slash_policy_witness :
    lastChar (buildURL "http://localhost:8000"
      ["sample", "path", "to", "resource"] true) = some '/' ∧
    (buildURL "http://localhost:8000"
      ["sample", "path", "to", "resource"] true).data.dropLast.getLast? ≠ some '/' ∧
    lastChar (buildURL "http://localhost:8000"
      ["sample", "path", "to", "resource"] false) ≠ some '/' ∧
    buildURL "http://localhost:8000" ["sample", "path", "to", "resource"] true
      = buildURL "http://localhost:8000" ["sample", "path", "to", "resource"] false ++ "/" :=
  trailing_slash_policy "http://localhost:8000" "resource" ["sample", "path", "to"]
    ["sample", "path", "to", "resource"] rfl (by decide) (by decide)

/-- Claim C4: dispatching never mutates the Client session: after any
sequence of dispatches the threaded Client state is the original one, the
requests of the run are exactly the per-call dispatches computed from the
original Client, every dispatched request's headers are the Client defaults
shallow-merged with that call's own overrides (per-call wins per key), and a
call with no overrides carries exactly the Client's default headers and
auth — so one call's overrides never appear in another call's request. -/
theorem dispatch_no_mutation (c : Client) (calls : List DispatchCall)
    (call : DispatchCall) (k : String) :
    (runSession c calls).2 = c ∧
    (runSession c calls).1 = calls.map (fun cl =>
      dispatch (extendByNames (.root c) cl.segs) cl.method cl.opts) ∧
    (dispatch (extendByNames (.root c) call.segs) call.method call.opts).headers.lookup k
      = (match call.opts.headers.lookup k with
         | some v => some v
         | none => c.config.headers.lookup k) ∧
    (call.opts.headers = [] → call.opts.auth = none →
      (dispatch (extendByNames (.root c) call.segs) call.method call.opts).headers
        = c.config.headers ∧
      (dispatch (extendByNames (.root c) call.segs) call.method call.opts).auth
        = c.config.auth) := by
  have hcl : (extendByNames (.root c) call.segs).clientOf = c :=
    clientOf_extendByNames call.segs (.root c)
  refine ⟨(runSession_spec c calls).1, (runSession_spec c calls).2, ?_, ?_⟩
  · simp only [dispatch, hcl]
    exact mergeHeaders_lookup c.config.headers call.opts.headers k
  · intro h1 h2
    simp only [dispatch, hcl]
    constructor
    · rw [h1, mergeHeaders_nil]
    · rw [h2, mergeAuth_none]

/-- The session Client of test `test_session`: default Accept header and
basic auth. -/
def sessionClientW : Client :=
  mkClient { base_url := "http://localhost:8000",
             headers := [("Accept", "application/json")],
             auth := some ("foo", "bar") }

/-- A first dispatch carrying per-call overrides. -/
def callOverrideW : DispatchCall :=
  ⟨["sample"], "GET", { headers := [("X-Custom", "1")], auth := some ("x", "y") }⟩

/-- A second, unrelated dispatch with no per-call overrides. -/
def callPlainW : DispatchCall := ⟨["sample"], "GET", {}⟩

/-- The session trace of the witness: override call, then plain call. -/
def callsW : List DispatchCall := [callOverrideW, callPlainW]

theorem dispatch_no_mutation_witness :
    (runSession sessionClientW callsW).2 = sessionClientW ∧
    (dispatch (extendByNames (.root sessionClientW) callPlainW.segs)
        callPlainW.method callPlainW.opts).headers
      = sessionClientW.config.headers ∧
    (dispatch (extendByNames (.root sessionClientW) callPlainW.segs)
        callPlainW.method callPlainW.opts).auth
      = sessionClientW.config.auth :=
  ⟨(dispatch_no_mutation sessionClientW callsW callPlainW "Accept").1,
   ((dispatch_no_mutation sessionClientW callsW callPlainW "Accept").2.2.2 rfl rfl).1,
   ((dispatch_no_mutation sessionClientW callsW callPlainW "Accept").2.2.2 rfl rfl).2⟩

/-- Claim C5: for every specialization of the Client that overrides the
URL-resolution operation, dispatching through a chain built with the shared
chain-building operations invokes the override — the dispatched request's
URL (and the node's string conversion) is exactly what the override
produces, for every override function. -/
theorem override_url_dispatched (cfg : ClientConfig)
    (f : ClientConfig → List String → String) (steps : List Step)
    (m : PathNode) (method : String) (opts : RequestOptions)
    (h : buildChain (.root (mkCustomClient cfg f)) steps = some m) :
    (dispatch m method opts).url = f cfg (flattenSteps steps) ∧
    strConv m = f cfg (flattenSteps steps) := by
  obtain ⟨hs, hc⟩ := buildChain_spec steps _ _ h
  have hu : nodeURL m = f cfg (flattenSteps steps) := by
    unfold nodeURL
    rw [hc, hs]
    simp [mkCustomClient, PathNode.clientOf, PathNode.segments]
  exact ⟨hu, hu⟩

/-- The overriding URL resolution of the witness: it marks every URL it
produces, so its output is distinguishable from the base resolution. -/
def customResolveW : ClientConfig → List String → String :=
  fun cfg segs => "custom:" ++ defaultResolve cfg segs

/-- A specialized client with the overriding URL resolution installed. -/
def customClientW : Client :=
  mkCustomClient { base_url := "http://localhost:8000" } customResolveW

/-- The node built from the specialized client by the shared chain API. -/
def customNodeW : PathNode :=
  .child (.child (.child (.child (.root customClientW) "sample") "path") "to") "resource"

theorem override_url_dispatched_witness :
    (dispatch customNodeW "GET" {}).url
      = customResolveW { base_url := "http://localhost:8000" }
          ["sample", "path", "to", "resource"] ∧
    strConv customNodeW
      = customResolveW { base_url := "http://localhost:8000" }
          ["sample", "path", "to", "resource"] :=
  override_url_dispatched { base_url := "http://localhost:8000" } customResolveW
    stepsAttrW customNodeW "GET" {} rfl

/-- Claim C6: string conversion of any node built over a base-constructed
Client yields exactly the URL the URLBuilder algorithm resolves for its
chain — the base URL joined with every segment, honoring the
trailing-slash policy — and dispatch uses that same string as the request
URL. -/
theorem strConv_resolved_url (cfg : ClientConfig) (steps : List Step)
    (m : PathNode) (method : String) (opts : RequestOptions)
    (h : buildChain (.root (mkClient cfg)) steps = some m) :
    strConv m = buildURL cfg.base_url (flattenSteps steps) cfg.append_slash ∧
    (dispatch m method opts).url = strConv m := by
  obtain ⟨hs, hc⟩ := buildChain_spec steps _ _ h
  have hu : strConv m = buildURL cfg.base_url (flattenSteps steps) cfg.append_slash := by
    unfold strConv nodeURL
    rw [hc, hs]
    simp [mkClient, PathNode.clientOf, PathNode.segments, defaultResolve]
  exact ⟨hu, rfl⟩

theorem strConv_resolved_url_witness :
    strConv nodeW = buildURL "http://localhost:8000"
      ["sample", "path", "to", "resource"] false ∧
    (dispatch nodeW "GET" {}).url = strConv nodeW :=
  strConv_resolved_url { base_url := "http://localhost:8000" } stepsMixedW
    nodeW "GET" {} rfl

/-- Claim C7: a call with zero segment arguments returns the node itself
unchanged — no new node is created — and therefore the resolved URL of the
result equals the resolved URL of the node it was called on. -/
theorem extendByNames_zero (n : PathNode) :
    extendByNames n [] = n ∧ nodeURL (extendByNames n []) = nodeURL n :=
  ⟨rfl, rfl⟩

/-- Claim C8: whenever a page response of `iter_cursor` is a dict that does
not contain the cursor field at top level — or maps it to a falsy value —
the iteration yields exactly the current page's items and stops, whatever
items later pages would have held and even when a cursor value sits
elsewhere in the response. -/
theorem iter_cursor_stops_without_cursor (pages : Nat → JValue) (cf : String)
    (fuel k : Nat) (fs : List (String × JValue)) (its : List JValue)
    (hp : pages k = .obj fs)
    (hi : extractItems (.obj fs) cf = some its)
    (hc : ncFalsy (fs.lookup cf) = true) :
    iterCursorAux pages cf (fuel + 1) k = its := by
  simp only [iterCursorAux, hp, hi]
  have hnc : nextCursorOf (.obj fs) cf = fs.lookup cf := rfl
  rw [hnc, hc]
  simp

/-- The page stream of the witness: the first page has two items and carries
its next cursor only nested inside a metadata object, not at top level;
every later page has one more item, which iteration never reaches. -/
def pagesW : Nat → JValue := fun k =>
  if k = 0 then
    .obj [("items", .arr [.num 1, .num 2]),
          ("meta", .obj [("next_cursor", .str "abc")])]
  else .obj [("items", .arr [.num 3]), ("next_cursor", .str "def")]

theorem iter_cursor_stops_witness :
    iterCursor pagesW "next_cursor" 5 = [.num 1, .num 2] :=
  iter_cursor_stops_without_cursor pagesW "next_cursor" 4 0
    [("items", .arr [.num 1, .num 2]),
     ("meta", .obj [("next_cursor", .str "abc")])]
    [.num 1, .num 2] rfl rfl rfl

/-- Claim C9: a request wrapped by `with_retry` terminates after at most
`max_retries + 1` invocations of the underlying request; a response whose
status code is not in `retry_codes` is returned immediately after a single
invocation, and in every case the returned response is the one of the final
attempt. -/
theorem with_retry_bounded (resp : Nat → Response) (maxRetries : Nat)
    (retryCodes : List Nat) :
    (retryRequest resp maxRetries retryCodes).2 ≤ maxRetries + 1 ∧
    (retryRequest resp maxRetries retryCodes).1 =
      resp ((retryRequest resp maxRetries retryCodes).2 - 1) ∧
    ((resp 0).status_code ∉ retryCodes →
      retryRequest resp maxRetries retryCodes = (resp 0, 1)) ∧
    (∀ remaining attempt : Nat, (resp attempt).status_code ∉ retryCodes →
      retryAux resp retryCodes remaining attempt = (resp attempt, attempt + 1)) := by
  obtain ⟨h1, h2, h3⟩ := retryAux_spec resp retryCodes maxRetries 0
  refine ⟨by simpa using h2, h3, ?_, ?_⟩
  · intro h
    exact retryAux_first resp retryCodes maxRetries 0 h
  · intro remaining attempt h
    exact retryAux_first resp retryCodes remaining attempt h

/-- The underlying request of the witness always answers 200. -/
def respW : Nat → Response := fun _ => ⟨200, "ok"⟩

theorem with_retry_bounded_witness :
    (retryRequest respW 3 [500, 502, 503, 504]).2 ≤ 4 ∧
    retryRequest respW 3 [500, 502, 503, 504] = (respW 0, 1) :=
  ⟨(with_retry_bounded respW 3 [500, 502, 503, 504]).1,
   (with_retry_bounded respW 3 [500, 502, 503, 504]).2.2.1 (by decide)⟩

/-- Claim C10: the memory cache installed by `with_memory_cache` only ever
stores responses with status code 200 (starting from the empty cache, after
any sequence of calls every stored entry has status 200); a cached response
is served in place of a network request only when an entry for the same key
is strictly younger than the TTL, and whenever the network is consulted the
fresh response is returned, uncached if its status is not 200. -/
theorem memory_cache_200_invariant (ttl : Int) (ops : List CacheOp)
    (cache : List (String × CacheEntry)) (key : String) (now : Int)
    (fresh : Response) :
    (∀ e ∈ runCache ttl [] ops, e.2.response.status_code = 200) ∧
    ((cachedGet ttl cache key now fresh).2.2 = false →
      ∃ en, cache.lookup key = some en ∧ now - en.time < ttl ∧
        (cachedGet ttl cache key now fresh).1 = en.response) ∧
    ((cachedGet ttl cache key now fresh).2.2 = true →
      (cachedGet ttl cache key now fresh).1 = fresh ∧
      (fresh.status_code ≠ 200 → (cachedGet ttl cache key now fresh).2.1 = cache)) :=
  ⟨runCache_inv ttl ops [] (by intro e he; exact absurd he (List.not_mem_nil e)),
   cachedGet_hit ttl cache key now fresh,
   cachedGet_network ttl cache key now fresh⟩

/-- The witness trace: a 200 response stored at time 0, then a 500 response
offered at time 10 under the same key. -/
def opsW : List CacheOp := [⟨"k", 0, ⟨200, "a"⟩⟩, ⟨"k", 10, ⟨500, "b"⟩⟩]

/-- The witness cache: one fresh 200 entry under key `k`. -/
def cacheW : List (String × CacheEntry) := [("k", ⟨⟨200, "a"⟩, 0⟩)]

theorem memory_cache_200_invariant_witness :
    (∀ e ∈ runCache 60 [] opsW, e.2.response.status_code = 200) ∧
    (∃ en, cacheW.lookup "k" = some en ∧ (10 : Int) - en.time < 60 ∧
      (cachedGet 60 cacheW "k" 10 ⟨500, "b"⟩).1 = en.response) :=
  ⟨(memory_cache_200_invariant 60 opsW cacheW "k" 10 ⟨500, "b"⟩).1,
   (memory_cache_200_invariant 60 opsW cacheW "k" 10 ⟨500, "b"⟩).2.1 rfl⟩

end Hammx
